import Mathlib

set_option autoImplicit false

namespace Oblivion

/-!
Verification development for the OblivionEngine warning engine.

The repository ships the Electron main-process entry point
(`src/main/index.ts`) together with a specification of the
dangerous-command detection and confirmation engine
(`src/main/warning-engine.ts`, described in the spec but whose source file
is not part of the sources available here).  The engine itself is therefore
modelled from the spec, faithfully following its words on the data model
(§3), classifier (§4.2), risk policy (§4.3) and confirmation state machine
(§4.4).  The main-process window-creation logic is embedded directly from
`src/main/index.ts`.
-/

/-- Modelled from the spec: `riskLevel` is ordinal, one of
LOW, MEDIUM, HIGH, CRITICAL (§3, missing `warning-engine.ts`). -/
inductive RiskLevel where
  | LOW
  | MEDIUM
  | HIGH
  | CRITICAL
  deriving DecidableEq, Repr

/-- Modelled from the spec: `aggregateRisk` is the highest risk level among
matches, or NONE if there are no matches (§3, missing `warning-engine.ts`). -/
inductive AggregateRisk where
  | NONE
  | LOW
  | MEDIUM
  | HIGH
  | CRITICAL
  deriving DecidableEq, Repr

/-- Modelled from the spec: the decision is one of ALLOW, CONFIRM, BLOCK
(§3, missing `warning-engine.ts`). -/
inductive Decision where
  | ALLOW
  | CONFIRM
  | BLOCK
  deriving DecidableEq, Repr

/-- Ordinal value of a risk level under LOW < MEDIUM < HIGH < CRITICAL. -/
def riskToNat : RiskLevel → Nat
  | .LOW => 1
  | .MEDIUM => 2
  | .HIGH => 3
  | .CRITICAL => 4

/-- Ordinal value of an aggregate risk, with NONE below every risk level. -/
def aggToNat : AggregateRisk → Nat
  | .NONE => 0
  | .LOW => 1
  | .MEDIUM => 2
  | .HIGH => 3
  | .CRITICAL => 4

/-- Embed a rule risk level into the aggregate-risk scale. -/
def riskToAgg : RiskLevel → AggregateRisk
  | .LOW => .LOW
  | .MEDIUM => .MEDIUM
  | .HIGH => .HIGH
  | .CRITICAL => .CRITICAL

/-- Maximum of two aggregate risks under the ordinal order. -/
def aggMax (a b : AggregateRisk) : AggregateRisk :=
  if aggToNat a ≤ aggToNat b then b else a

/-!  A small regular-expression language.  The spec's pattern variants are
Literal, TokenSet and Regex (§9, design note on tagged pattern variants);
the regex dialect itself is not pinned down by the spec, so the model uses
a minimal one (single characters, the `.` wildcard, postfix `*`, and
backslash escapes) that still admits unparseable inputs, which is all that
the claims about eager validation need. -/

/-- An atom of the modelled regex language: a literal character or the
`.` wildcard. -/
inductive RAtom where
  | chr (c : Char)
  | anyChar
  deriving DecidableEq, Repr

/-- A regex item: an atom, possibly under a postfix Kleene star. -/
structure RItem where
  atom : RAtom
  starred : Bool
  deriving DecidableEq, Repr

/-- Whether a regex atom matches a single character. -/
def atomMatch : RAtom → Char → Bool
  | .chr c, d => c == d
  | .anyChar, _ => true

/-- Whether a prefix of the character list matches the items; used to
search for a regex match anywhere in the text. -/
def matchItemsAt : List RItem → List Char → Bool
  | [], _ => true
  | ⟨_, false⟩ :: _, [] => false
  | ⟨a, false⟩ :: ps, c :: cs => atomMatch a c && matchItemsAt ps cs
  | ⟨_, true⟩ :: ps, [] => matchItemsAt ps []
  | ⟨a, true⟩ :: ps, c :: cs =>
      matchItemsAt ps (c :: cs) || (atomMatch a c && matchItemsAt (⟨a, true⟩ :: ps) cs)
  termination_by ps cs => (cs.length, ps.length)

/-- Whether the regex items match at some position of the character list. -/
def reSearch (ps : List RItem) : List Char → Bool
  | [] => matchItemsAt ps []
  | c :: cs => matchItemsAt ps (c :: cs) || reSearch ps cs

/-- Parse the modelled regex dialect: atoms are single characters, `.` is a
wildcard, a backslash escapes the next character, and `*` stars the
preceding atom.  Returns none for unparseable sources (a dangling
backslash, or a `*` with no preceding atom). -/
def parseRegexCl : List Char → Option (List RItem)
  | [] => some []
  | '*' :: _ => none
  | '\\' :: [] => none
  | '\\' :: c :: '*' :: rest => (parseRegexCl rest).map (⟨.chr c, true⟩ :: ·)
  | '\\' :: c :: rest => (parseRegexCl rest).map (⟨.chr c, false⟩ :: ·)
  | c :: '*' :: rest =>
      (parseRegexCl rest).map (⟨if c = '.' then .anyChar else .chr c, true⟩ :: ·)
  | c :: rest =>
      (parseRegexCl rest).map (⟨if c = '.' then .anyChar else .chr c, false⟩ :: ·)

/-- Whether the needle occurs as a contiguous substring of the hay. -/
def containsSub (needle : List Char) : List Char → Bool
  | [] => needle.isEmpty
  | c :: cs => needle.isPrefixOf (c :: cs) || containsSub needle cs

/-- Apply a pattern's case-sensitivity choice: case-insensitive matching
lowercases the text before comparing (§4.2 step 2). -/
def applyCase (caseSensitive : Bool) (s : String) : String :=
  if caseSensitive then s else s.toLower

/-- Split a character list at whitespace, keeping chunk contents. -/
def wordsAux (cs : List Char) : List (List Char) :=
  cs.foldr
    (fun c acc =>
      if c.isWhitespace then [] :: acc
      else
        match acc with
        | [] => [[c]]
        | w :: rest => (c :: w) :: rest)
    []

/-- The whitespace-delimited tokens of a character list. -/
def wordsCl (cs : List Char) : List (List Char) :=
  (wordsAux cs).filter (fun w => !w.isEmpty)

/-- Modelled from the spec: a pattern is a tagged variant
{Literal, TokenSet, Regex}, each declaring whether matching is
case-sensitive (§3, §4.2, §9; missing `warning-engine.ts`). -/
inductive Pattern where
  | literal (s : String) (caseSensitive : Bool)
  | tokenSet (toks : List String) (caseSensitive : Bool)
  | regex (items : List RItem) (caseSensitive : Bool)
  deriving DecidableEq, Repr

/-- Modelled from the spec: a rule matches if a literal pattern is found as
a substring, a token-set pattern matches at least one whitespace-delimited
token exactly, or a regex pattern finds at least one match anywhere in the
text (§4.2, missing `warning-engine.ts`). -/
def matchPattern : Pattern → String → Bool
  | .literal s cs, t => containsSub (applyCase cs s).data (applyCase cs t).data
  | .tokenSet toks cs, t =>
      (wordsCl (applyCase cs t).data).any
        (fun w => toks.any (fun p => (applyCase cs p).data == w))
  | .regex items cs, t => reSearch items (applyCase cs t).data

/-- Modelled from the spec: an immutable rule definition (§3, missing
`warning-engine.ts`). -/
structure Rule where
  id : String
  pattern : Pattern
  riskLevel : RiskLevel
  category : String
  explanation : String
  enabled : Bool
  deriving DecidableEq, Repr

/-- Trim leading and trailing whitespace of a character list; nothing else
is changed. -/
def normalizeCl (cs : List Char) : List Char :=
  ((cs.dropWhile Char.isWhitespace).reverse.dropWhile Char.isWhitespace).reverse

/-- Modelled from the spec: normalization before matching trims leading
and trailing whitespace only; internal whitespace is preserved (§4.2
step 1, missing `warning-engine.ts`). -/
def normalize (t : String) : String :=
  ⟨normalizeCl t.data⟩

/-- Modelled from the spec: the per-command classification result (§3,
missing `warning-engine.ts`). -/
structure ClassificationResult where
  commandText : String
  «matches» : List Rule
  aggregateRisk : AggregateRisk
  decision : Decision
  deriving DecidableEq, Repr

/-- The maximum risk level across a match set, NONE when it is empty. -/
def aggregateOf (ms : List Rule) : AggregateRisk :=
  ms.foldr (fun r acc => aggMax (riskToAgg r.riskLevel) acc) .NONE

/-- Modelled from the spec: the fixed decision mapping — NONE or LOW to
ALLOW, MEDIUM to CONFIRM, HIGH or CRITICAL to BLOCK (§4.3, missing
`warning-engine.ts`). -/
def decideFromRisk : AggregateRisk → Decision
  | .NONE => .ALLOW
  | .LOW => .ALLOW
  | .MEDIUM => .CONFIRM
  | .HIGH => .BLOCK
  | .CRITICAL => .BLOCK

/-- Modelled from the spec: the Risk Policy contract
`decide(matches) -> (aggregateRisk, decision)` (§4.3, missing
`warning-engine.ts`). -/
def decide (ms : List Rule) : AggregateRisk × Decision :=
  (aggregateOf ms, decideFromRisk (aggregateOf ms))

/-- Modelled from the spec: the Command Classifier contract
`classify(commandText, catalog) -> ClassificationResult` — every enabled
rule is tested against the normalized text, all matching rules are
collected without short-circuiting, and the Risk Policy produces the
verdict (§4.2, §4.3, missing `warning-engine.ts`). -/
def classify (commandText : String) (catalog : List Rule) : ClassificationResult :=
  let ms := catalog.filter (fun r => r.enabled && matchPattern r.pattern (normalize commandText))
  { commandText := commandText
    «matches» := ms
    aggregateRisk := (decide ms).1
    decision := (decide ms).2 }

/-- Modelled from the spec: transient state held while awaiting the user's
response to a CONFIRM or BLOCK verdict — the original command text, exact
and unmodified, and the triggering result (§3, missing
`warning-engine.ts`). -/
structure PendingConfirmation where
  commandText : String
  result : ClassificationResult
  deriving DecidableEq, Repr

/-- Modelled from the spec: engine states IDLE and AWAITING_CONFIRMATION
(§4.4, missing `warning-engine.ts`). -/
inductive EngineState where
  | IDLE
  | AWAITING_CONFIRMATION
  deriving DecidableEq, Repr

/-- Modelled from the spec: the Warning Engine facade owns the catalog and
at most one pending confirmation (§2, §3, missing `warning-engine.ts`). -/
structure WarningEngine where
  catalog : List Rule
  pending : Option PendingConfirmation
  deriving DecidableEq, Repr

/-- Modelled from the spec: `getState()` observability (§4.4, missing
`warning-engine.ts`). -/
def getState (e : WarningEngine) : EngineState :=
  match e.pending with
  | none => .IDLE
  | some _ => .AWAITING_CONFIRMATION

/-- Modelled from the spec: the error signalled when confirm is called
with no pending confirmation (§4.4, §7, missing `warning-engine.ts`). -/
inductive EngineError where
  | NoPendingConfirmationError
  deriving DecidableEq, Repr

/-- Modelled from the spec: `evaluate(commandText)` classifies and
transitions the state machine — no state change on ALLOW, a
PendingConfirmation holding the exact command text on CONFIRM or BLOCK
(§4.4; a new evaluation supersedes an old pending confirmation, resolving
the policy choice §9 leaves open; missing `warning-engine.ts`). -/
def evaluate (e : WarningEngine) (commandText : String) :
    ClassificationResult × WarningEngine :=
  let r := classify commandText e.catalog
  match r.decision with
  | .ALLOW => (r, e)
  | _ => (r, { e with pending := some { commandText := commandText, result := r } })

/-- Modelled from the spec: `confirm(accept)` fails with
NoPendingConfirmationError when IDLE, leaving the engine unchanged;
otherwise it clears the pending confirmation, emitting the original
command text on accept and null on reject (§4.4, §7, missing
`warning-engine.ts`). -/
def confirm (e : WarningEngine) (accept : Bool) :
    Except EngineError (Option String) × WarningEngine :=
  match e.pending with
  | none => (.error .NoPendingConfirmationError, e)
  | some pc =>
      (.ok (if accept then some pc.commandText else none), { e with pending := none })

/-- Modelled from the spec: `findById(id)` returns the rule or a not-found
indicator (§4.1, missing `warning-engine.ts`). -/
def findById (catalog : List Rule) (id : String) : Option Rule :=
  catalog.find? (fun r => r.id == id)

/-- Modelled from the spec: merge of built-in rules with user rules — on
`id` collision the user-supplied rule overrides the built-in one entirely,
replacement not field-wise merge; insertion order of built-ins is kept and
genuinely new user rules are appended (§3, §6, missing
`warning-engine.ts`). -/
def mergeRules (builtins userRules : List Rule) : List Rule :=
  builtins.map (fun b => ((userRules.find? (fun u => u.id == b.id)).getD b))
    ++ userRules.filter (fun u => !builtins.any (fun b => b.id == u.id))

/-- Modelled from the spec: a raw, not yet validated rule as it arrives
from configuration, with a loosely-typed pattern and possibly missing
fields (§6, §9, missing `warning-engine.ts`). -/
inductive RawPattern where
  | literal (s : String) (caseSensitive : Bool)
  | tokenSet (toks : List String) (caseSensitive : Bool)
  | regex (src : String) (caseSensitive : Bool)
  deriving DecidableEq, Repr

/-- Modelled from the spec: the raw configuration shape of a rule; the
risk level is optional to model a malformed or missing level (§4.1, §6,
missing `warning-engine.ts`). -/
structure RawRule where
  id : String
  rawPattern : RawPattern
  riskLevel : Option RiskLevel
  category : String
  explanation : String
  enabled : Bool
  deriving DecidableEq, Repr

/-- Modelled from the spec: `InvalidRuleError` raised for a malformed rule
at load time — missing id, invalid risk level, unparseable pattern (§4.1,
§7, missing `warning-engine.ts`). -/
inductive InvalidRuleError where
  | missingId
  | invalidRiskLevel
  | unparseablePattern (src : String)
  deriving DecidableEq, Repr

/-- The raw text of a raw pattern, used in error reports. -/
def rawSourceText : RawPattern → String
  | .literal s _ => s
  | .tokenSet _ _ => ""
  | .regex src _ => src

/-- Compile a raw pattern eagerly; regex sources that do not parse are
rejected here, at load time, never at match time (§7, §9). -/
def compileRaw : RawPattern → Option Pattern
  | .literal s cs => some (.literal s cs)
  | .tokenSet toks cs => some (.tokenSet toks cs)
  | .regex src cs => (parseRegexCl src.data).map (fun items => .regex items cs)

/-- Modelled from the spec: eager validation of one raw rule (§4.1, §7,
missing `warning-engine.ts`). -/
def validateRule (raw : RawRule) : Except InvalidRuleError Rule :=
  if raw.id = "" then .error .missingId
  else
    match raw.riskLevel with
    | none => .error .invalidRiskLevel
    | some rl =>
        match compileRaw raw.rawPattern with
        | none => .error (.unparseablePattern (rawSourceText raw.rawPattern))
        | some p =>
            .ok { id := raw.id, pattern := p, riskLevel := rl,
                  category := raw.category, explanation := raw.explanation,
                  enabled := raw.enabled }

/-- Modelled from the spec: loading a raw rule list rejects only the
offending rules, loads every valid rule, and reports which rules failed
and why (§7, missing `warning-engine.ts`). -/
def loadCatalog (raws : List RawRule) : List Rule × List (String × InvalidRuleError) :=
  raws.foldr
    (fun raw acc =>
      match validateRule raw with
      | .ok r => (r :: acc.1, acc.2)
      | .error e => (acc.1, (raw.id, e) :: acc.2))
    ([], [])

/-- Matching attempted directly on a raw pattern, as a duck-typed design
would do: it fails (none) exactly when the pattern does not compile, so a
bad pattern would surface during matching rather than loading (§9 design
note; used to show the validated design never fails at match time). -/
def matchRawPattern (rp : RawPattern) (t : String) : Option Bool :=
  (compileRaw rp).map (fun p => matchPattern p t)

/-!  Main-process window creation, embedded from `src/src/main/index.ts`.
Only the claim-relevant state is modelled: the module-level
`handlersRegistered` flag and how many times `registerAllHandlers` has
run.  The Electron window, logger and collaborator objects are opaque to
the claims and are not part of the state. -/

/-- The module-level mutable state of `src/src/main/index.ts` relevant to
IPC handler registration. -/
structure MainProcessState where
  handlersRegistered : Bool
  registrationCount : Nat
  deriving DecidableEq, Repr

/-- Module load time: `let handlersRegistered = false` and no
registrations have happened. -/
def initialMainState : MainProcessState :=
  { handlersRegistered := false, registrationCount := 0 }

/-- Step 7 of `createWindow` in `src/src/main/index.ts`: register all IPC
handlers only when the flag is unset, then set the flag; the flag is never
reset anywhere in the file. -/
def createWindow (s : MainProcessState) : MainProcessState :=
  if s.handlersRegistered then s
  else { handlersRegistered := true, registrationCount := s.registrationCount + 1 }

/-- The state after a sequence of n `createWindow()` calls in one process:
the initial launch plus repeated macOS activate re-creations. -/
def runCreateWindows : Nat → MainProcessState
  | 0 => initialMainState
  | n + 1 => createWindow (runCreateWindows n)

/-!  Concrete sample rules, following the examples given in the spec. -/

/-- A CRITICAL built-in rule for `rm -rf /`, as in the spec's examples. -/
def rmRfRule : Rule :=
  { id := "rm-rf-root", pattern := .literal "rm -rf /" true,
    riskLevel := .CRITICAL, category := "filesystem-destructive",
    explanation := "Recursively deletes from the filesystem root",
    enabled := true }

/-- The spec's built-in `force-push` rule with CRITICAL risk (§8 override
test). -/
def forcePushBuiltin : Rule :=
  { id := "force-push", pattern := .literal "--force" true,
    riskLevel := .CRITICAL, category := "force-push",
    explanation := "Overwrites remote history", enabled := true }

/-- A user rule with the same id as `forcePushBuiltin` and LOW risk (§8
override test). -/
def forcePushUser : Rule :=
  { id := "force-push", pattern := .literal "--force" true,
    riskLevel := .LOW, category := "force-push",
    explanation := "User accepts force pushes", enabled := true }

/-- The spec's `force-push` rule variant with HIGH risk (§8 scenario). -/
def forcePushHigh : Rule :=
  { id := "force-push", pattern := .literal "--force" true,
    riskLevel := .HIGH, category := "force-push",
    explanation := "Overwrites remote history", enabled := true }

/-- A MEDIUM rule for permission escalation, used for the multi-match
scenario of §8. -/
def chmodRule : Rule :=
  { id := "chmod-777", pattern := .literal "chmod 777" true,
    riskLevel := .MEDIUM, category := "permission-escalation",
    explanation := "Grants everyone full access", enabled := true }

/-- A raw rule whose regex source parses, so it loads successfully. -/
def goodRawRule : RawRule :=
  { id := "curl-pipe-sh", rawPattern := .regex "curl .* sh" true,
    riskLevel := some .HIGH, category := "remote-exec",
    explanation := "Pipes a remote script into a shell", enabled := true }

/-- A raw rule whose regex source is unparseable (a star with no atom). -/
def badRawRule : RawRule :=
  { id := "bad-regex", rawPattern := .regex "**" true,
    riskLevel := some .HIGH, category := "broken",
    explanation := "Broken pattern", enabled := true }

/-- A small sample engine over the sample rules, initially IDLE. -/
def sampleEngine : WarningEngine :=
  { catalog := [rmRfRule, chmodRule, forcePushHigh], pending := none }

/-!  Helper lemmas about the risk order and aggregation. -/

theorem aggToNat_riskToAgg (rl : RiskLevel) :
    aggToNat (riskToAgg rl) = riskToNat rl := by
  cases rl <;> rfl

theorem aggToNat_inj {a b : AggregateRisk} (h : aggToNat a = aggToNat b) :
    a = b := by
  cases a <;> cases b <;> first | rfl | exact absurd h (by decide)

theorem aggMax_toNat (a b : AggregateRisk) :
    aggToNat (aggMax a b) = max (aggToNat a) (aggToNat b) := by
  cases a <;> cases b <;> rfl

theorem aggMax_left_comm (a b c : AggregateRisk) :
    aggMax a (aggMax b c) = aggMax b (aggMax a c) := by
  apply aggToNat_inj
  simp only [aggMax_toNat]
  exact Nat.max_left_comm _ _ _

theorem aggMax_eq_or (a b : AggregateRisk) : aggMax a b = a ∨ aggMax a b = b := by
  unfold aggMax
  split
  · exact Or.inr rfl
  · exact Or.inl rfl

theorem aggregateOf_nil : aggregateOf [] = .NONE := rfl

theorem aggregateOf_cons (r : Rule) (l : List Rule) :
    aggregateOf (r :: l) = aggMax (riskToAgg r.riskLevel) (aggregateOf l) := rfl

theorem aggMax_none_right (a : AggregateRisk) : aggMax a .NONE = a := by
  cases a <;> rfl

theorem le_aggregateOf_of_mem {r : Rule} {l : List Rule} (h : r ∈ l) :
    riskToNat r.riskLevel ≤ aggToNat (aggregateOf l) := by
  induction l with
  | nil => cases h
  | cons a t ih =>
    rw [aggregateOf_cons, aggMax_toNat]
    rcases List.mem_cons.mp h with h | h
    · subst h
      rw [← aggToNat_riskToAgg]
      exact Nat.le_max_left _ _
    · exact Nat.le_trans (ih h) (Nat.le_max_right _ _)

theorem aggregateOf_le {l : List Rule} {n : Nat}
    (h : ∀ r ∈ l, riskToNat r.riskLevel ≤ n) :
    aggToNat (aggregateOf l) ≤ n := by
  induction l with
  | nil => exact Nat.zero_le n
  | cons a t ih =>
    rw [aggregateOf_cons, aggMax_toNat]
    refine Nat.max_le.mpr ⟨?_, ?_⟩
    · rw [aggToNat_riskToAgg]
      exact h a (List.mem_cons_self a t)
    · exact ih (fun r hr => h r (List.mem_cons_of_mem a hr))

theorem aggregateOf_attained {l : List Rule} (h : l ≠ []) :
    ∃ r ∈ l, aggregateOf l = riskToAgg r.riskLevel := by
  induction l with
  | nil => exact absurd rfl h
  | cons a t ih =>
    cases t with
    | nil =>
      refine ⟨a, List.mem_cons_self a [], ?_⟩
      rw [aggregateOf_cons, aggregateOf_nil, aggMax_none_right]
    | cons b t' =>
      rcases aggMax_eq_or (riskToAgg a.riskLevel) (aggregateOf (b :: t')) with hm | hm
      · exact ⟨a, List.mem_cons_self a _, by rw [aggregateOf_cons, hm]⟩
      · obtain ⟨r, hr, he⟩ := ih (List.cons_ne_nil b t')
        refine ⟨r, List.mem_cons_of_mem a hr, ?_⟩
        rw [aggregateOf_cons, hm, he]

theorem aggregateOf_perm {l₁ l₂ : List Rule} (h : l₁.Perm l₂) :
    aggregateOf l₁ = aggregateOf l₂ := by
  induction h with
  | nil => rfl
  | cons x _ ih => rw [aggregateOf_cons, aggregateOf_cons, ih]
  | swap x y l =>
    rw [aggregateOf_cons, aggregateOf_cons, aggregateOf_cons, aggregateOf_cons,
      aggMax_left_comm]
  | trans _ _ ih₁ ih₂ => rw [ih₁, ih₂]

theorem critical_of_four_le {a : AggregateRisk} (h : 4 ≤ aggToNat a) :
    a = .CRITICAL := by
  cases a <;> first | rfl | exact absurd h (by decide)

theorem high_of_eq_three {a : AggregateRisk} (h : aggToNat a = 3) :
    a = .HIGH := by
  cases a <;> first | rfl | exact absurd h (by decide)

/-!  Unfolding lemmas for the classifier and the engine facade. -/

theorem classify_commandText (t : String) (cat : List Rule) :
    (classify t cat).commandText = t := rfl

theorem classify_matches (t : String) (cat : List Rule) :
    (classify t cat).«matches»
      = cat.filter (fun r => r.enabled && matchPattern r.pattern (normalize t)) := rfl

theorem classify_aggregateRisk (t : String) (cat : List Rule) :
    (classify t cat).aggregateRisk = aggregateOf ((classify t cat).«matches») := rfl

theorem classify_decision_eq (t : String) (cat : List Rule) :
    (classify t cat).decision
      = decideFromRisk (aggregateOf ((classify t cat).«matches»)) := rfl

theorem evaluate_fst (e : WarningEngine) (t : String) :
    (evaluate e t).1 = classify t e.catalog := by
  cases h : (classify t e.catalog).decision <;> simp [evaluate, h]

/-- C1: for every command text that contains a token matched by an enabled
CRITICAL-risk rule of the catalog, evaluate returns a ClassificationResult
with decision BLOCK — no false negatives on catastrophic commands. -/
theorem evaluate_blocks_critical_match (e : WarningEngine) (t : String) (r : Rule)
    (hmem : r ∈ e.catalog) (hen : r.enabled = true)
    (hcrit : r.riskLevel = .CRITICAL)
    (hmatch : matchPattern r.pattern (normalize t) = true) :
    ((evaluate e t).1).decision = .BLOCK := by
  rw [evaluate_fst, classify_decision_eq]
  have hm : r ∈ (classify t e.catalog).«matches» := by
    rw [classify_matches, List.mem_filter]
    exact ⟨hmem, by simp [hen, hmatch]⟩
  have h4 : 4 ≤ aggToNat (aggregateOf ((classify t e.catalog).«matches»)) := by
    have hle := le_aggregateOf_of_mem hm
    rw [hcrit] at hle
    exact hle
  rw [critical_of_four_le h4]
  rfl

/-- Witness for C1: the sample engine blocks a command containing the
CRITICAL `rm -rf /` token. -/
theorem evaluate_blocks_critical_match_witness :
    ((evaluate sampleEngine "rm -rf /tmp/x").1).decision = .BLOCK :=
  evaluate_blocks_critical_match sampleEngine "rm -rf /tmp/x" rmRfRule
    (by decide) (by decide) (by decide) (by decide)

/-- C2: decide returns the maximum riskLevel of the match set under
LOW < MEDIUM < HIGH < CRITICAL (NONE when empty), and returns ALLOW exactly
for NONE or LOW, CONFIRM exactly for MEDIUM, BLOCK exactly for HIGH or
CRITICAL. -/
theorem decide_max_and_mapping (ms : List Rule) :
    (ms = [] → (decide ms).1 = .NONE)
    ∧ (ms ≠ [] → ∃ r ∈ ms, (decide ms).1 = riskToAgg r.riskLevel
        ∧ ∀ q ∈ ms, riskToNat q.riskLevel ≤ riskToNat r.riskLevel)
    ∧ ((decide ms).2 = .ALLOW ↔ ((decide ms).1 = .NONE ∨ (decide ms).1 = .LOW))
    ∧ ((decide ms).2 = .CONFIRM ↔ (decide ms).1 = .MEDIUM)
    ∧ ((decide ms).2 = .BLOCK ↔ ((decide ms).1 = .HIGH ∨ (decide ms).1 = .CRITICAL)) := by
  have hfst : (decide ms).1 = aggregateOf ms := rfl
  have hsnd : (decide ms).2 = decideFromRisk (aggregateOf ms) := rfl
  refine ⟨?_, ?_, ?_, ?_, ?_⟩
  · intro h
    subst h
    rfl
  · intro h
    obtain ⟨r, hr, he⟩ := aggregateOf_attained h
    refine ⟨r, hr, by rw [hfst, he], ?_⟩
    intro q hq
    have hle := le_aggregateOf_of_mem hq
    rw [he, aggToNat_riskToAgg] at hle
    exact hle
  all_goals
    rw [hsnd, hfst]
    cases h : aggregateOf ms <;> simp [decideFromRisk]

/-- Witness for C2 at the empty match set. -/
theorem decide_max_and_mapping_witness :
    (decide ([] : List Rule)).1 = .NONE :=
  (decide_max_and_mapping []).1 rfl

/-- C4: evaluate is deterministic and catalog-order-independent — the
result is a pure function of the command text and the catalog snapshot
(identical for engines in the same snapshot whatever their other state),
and permuting the catalog permutes only the listing of matches, leaving
command text, aggregate risk and decision identical. -/
theorem evaluate_deterministic_order_independent (t : String)
    (e₁ e₂ : WarningEngine) (hperm : e₁.catalog.Perm e₂.catalog) :
    (∀ e₃ : WarningEngine, e₃.catalog = e₁.catalog →
        (evaluate e₁ t).1 = (evaluate e₃ t).1)
    ∧ ((evaluate e₁ t).1).commandText = ((evaluate e₂ t).1).commandText
    ∧ ((evaluate e₁ t).1).«matches».Perm (((evaluate e₂ t).1).«matches»)
    ∧ ((evaluate e₁ t).1).aggregateRisk = ((evaluate e₂ t).1).aggregateRisk
    ∧ ((evaluate e₁ t).1).decision = ((evaluate e₂ t).1).decision := by
  have hp : ((evaluate e₁ t).1).«matches».Perm (((evaluate e₂ t).1).«matches») := by
    rw [evaluate_fst, evaluate_fst, classify_matches, classify_matches]
    exact hperm.filter _
  refine ⟨?_, ?_, hp, ?_, ?_⟩
  · intro e₃ he
    rw [evaluate_fst, evaluate_fst, he]
  · rw [evaluate_fst, evaluate_fst, classify_commandText, classify_commandText]
  · rw [evaluate_fst, evaluate_fst, classify_aggregateRisk, classify_aggregateRisk]
    exact aggregateOf_perm (by rw [← evaluate_fst e₁ t, ← evaluate_fst e₂ t]; exact hp)
  · rw [evaluate_fst, evaluate_fst, classify_decision_eq, classify_decision_eq]
    exact congrArg decideFromRisk
      (aggregateOf_perm (by rw [← evaluate_fst e₁ t, ← evaluate_fst e₂ t]; exact hp))

/-- Witness for C4: two engines over opposite catalog orders and different
pending states agree on decision for a concrete command. -/
theorem evaluate_deterministic_order_independent_witness :
    ((evaluate { catalog := [chmodRule, forcePushHigh], pending := none } "git push --force").1).decision
      = ((evaluate { catalog := [forcePushHigh, chmodRule], pending := none } "git push --force").1).decision :=
  (evaluate_deterministic_order_independent "git push --force"
    { catalog := [chmodRule, forcePushHigh], pending := none }
    { catalog := [forcePushHigh, chmodRule], pending := none }
    (List.Perm.swap forcePushHigh chmodRule [])).2.2.2.2

/-- Helper for C10: after at least one createWindow call the state is the
fixed point with the flag set and exactly one registration. -/
theorem runCreateWindows_of_pos {n : Nat} (h : 1 ≤ n) :
    runCreateWindows n = { handlersRegistered := true, registrationCount := 1 } := by
  induction n with
  | zero => cases h
  | succ m ih =>
    cases Nat.eq_zero_or_pos m with
    | inl h0 =>
      subst h0
      rfl
    | inr hp =>
      show createWindow (runCreateWindows m) = _
      rw [ih hp]
      rfl

/-- C10: across every sequence of createWindow calls in one process,
registerAllHandlers runs at most once — the handlersRegistered flag is set
on the first call and never reset, and every later call skips
registration. -/
theorem handlers_registered_at_most_once (n : Nat) :
    (runCreateWindows n).registrationCount ≤ 1
    ∧ (1 ≤ n → runCreateWindows n
        = { handlersRegistered := true, registrationCount := 1 })
    ∧ createWindow (runCreateWindows (n + 1)) = runCreateWindows (n + 1) := by
  refine ⟨?_, fun h => runCreateWindows_of_pos h, ?_⟩
  · cases Nat.eq_zero_or_pos n with
    | inl h0 =>
      subst h0
      decide
    | inr hp =>
      rw [runCreateWindows_of_pos hp]
  · rw [runCreateWindows_of_pos (Nat.succ_le_succ (Nat.zero_le n))]
    rfl

/-- Witness for C10: three createWindow calls leave exactly one handler
registration. -/
theorem handlers_registered_at_most_once_witness :
    runCreateWindows 3 = { handlersRegistered := true, registrationCount := 1 } :=
  (handlers_registered_at_most_once 3).2.1 (by decide)

/-- C3: classify tests every enabled rule and returns the full set of
matching rules without short-circuiting on the first match; a command
matching both a MEDIUM rule and a HIGH rule (and nothing above HIGH)
yields matches containing both rules with both explanations,
aggregateRisk HIGH and decision BLOCK. -/
theorem classify_no_short_circuit (cat : List Rule) (t : String) (r₁ r₂ : Rule)
    (h₁ : r₁ ∈ cat) (h₂ : r₂ ∈ cat)
    (he₁ : r₁.enabled = true) (he₂ : r₂.enabled = true)
    (hm₁ : matchPattern r₁.pattern (normalize t) = true)
    (hm₂ : matchPattern r₂.pattern (normalize t) = true)
    (_hr₁ : r₁.riskLevel = .MEDIUM) (hr₂ : r₂.riskLevel = .HIGH)
    (hcap : ∀ r ∈ cat, r.enabled = true →
      matchPattern r.pattern (normalize t) = true → riskToNat r.riskLevel ≤ 3) :
    (∀ r ∈ cat, r ∈ (classify t cat).«matches»
        ↔ (r.enabled = true ∧ matchPattern r.pattern (normalize t) = true))
    ∧ r₁ ∈ (classify t cat).«matches»
    ∧ r₂ ∈ (classify t cat).«matches»
    ∧ r₁.explanation ∈ ((classify t cat).«matches».map Rule.explanation)
    ∧ r₂.explanation ∈ ((classify t cat).«matches».map Rule.explanation)
    ∧ (classify t cat).aggregateRisk = .HIGH
    ∧ (classify t cat).decision = .BLOCK := by
  have hmem : ∀ r ∈ cat, r ∈ (classify t cat).«matches»
      ↔ (r.enabled = true ∧ matchPattern r.pattern (normalize t) = true) := by
    intro r hr
    rw [classify_matches, List.mem_filter, Bool.and_eq_true]
    simp [hr]
  have hin₁ : r₁ ∈ (classify t cat).«matches» := (hmem r₁ h₁).mpr ⟨he₁, hm₁⟩
  have hin₂ : r₂ ∈ (classify t cat).«matches» := (hmem r₂ h₂).mpr ⟨he₂, hm₂⟩
  have hupper : aggToNat (aggregateOf ((classify t cat).«matches»)) ≤ 3 := by
    apply aggregateOf_le
    intro r hrm
    rw [classify_matches, List.mem_filter, Bool.and_eq_true] at hrm
    exact hcap r hrm.1 hrm.2.1 hrm.2.2
  have hlower : 3 ≤ aggToNat (aggregateOf ((classify t cat).«matches»)) := by
    have hle := le_aggregateOf_of_mem hin₂
    rw [hr₂] at hle
    exact hle
  have hagg : (classify t cat).aggregateRisk = .HIGH := by
    rw [classify_aggregateRisk]
    exact high_of_eq_three (Nat.le_antisymm hupper hlower)
  refine ⟨hmem, hin₁, hin₂,
    List.mem_map_of_mem Rule.explanation hin₁,
    List.mem_map_of_mem Rule.explanation hin₂, hagg, ?_⟩
  rw [classify_decision_eq, high_of_eq_three (Nat.le_antisymm hupper hlower)]
  rfl

/-- Witness for C3: a command matching the MEDIUM chmod rule and the HIGH
force-push rule aggregates to HIGH. -/
theorem classify_no_short_circuit_witness :
    (classify "git push --force; chmod 777 /etc" [chmodRule, forcePushHigh]).aggregateRisk
      = .HIGH :=
  (classify_no_short_circuit [chmodRule, forcePushHigh]
    "git push --force; chmod 777 /etc" chmodRule forcePushHigh
    (by decide) (by decide) (by decide) (by decide) (by decide) (by decide)
    (by decide) (by decide) (by decide)).2.2.2.2.2.1

/-- C5: after an evaluation that produced CONFIRM or BLOCK (state
AWAITING_CONFIRMATION), confirm(accept=true) returns the original command
text unchanged, clears the pending confirmation and returns the engine
state to IDLE. -/
theorem confirm_accept_returns_original (e : WarningEngine) (t : String)
    (hdec : ((evaluate e t).1).decision = .CONFIRM
      ∨ ((evaluate e t).1).decision = .BLOCK) :
    getState (evaluate e t).2 = .AWAITING_CONFIRMATION
    ∧ confirm (evaluate e t).2 true
        = (.ok (some t), { catalog := e.catalog, pending := none })
    ∧ getState (confirm (evaluate e t).2 true).2 = .IDLE := by
  rw [evaluate_fst] at hdec
  have hsnd : (evaluate e t).2
      = { catalog := e.catalog,
          pending := some { commandText := t, result := classify t e.catalog } } := by
    cases h : (classify t e.catalog).decision with
    | ALLOW => simp [h] at hdec
    | CONFIRM => simp [evaluate, h]
    | BLOCK => simp [evaluate, h]
  rw [hsnd]
  exact ⟨rfl, rfl, rfl⟩

/-- Witness for C5: accepting the pending confirmation for
`rm -rf /tmp/x` returns exactly that text and clears the pending state. -/
theorem confirm_accept_returns_original_witness :
    confirm (evaluate sampleEngine "rm -rf /tmp/x").2 true
      = (.ok (some "rm -rf /tmp/x"), { catalog := sampleEngine.catalog, pending := none }) :=
  (confirm_accept_returns_original sampleEngine "rm -rf /tmp/x"
    (Or.inr (by decide))).2.1

/-- C6: whenever the engine has no pending confirmation, confirm fails
with NoPendingConfirmationError and leaves the engine unchanged; in
particular after confirm(false) clears a pending confirmation, any
subsequent confirm call fails with the same error. -/
theorem confirm_without_pending_fails (e : WarningEngine) (accept : Bool)
    (hidle : getState e = .IDLE) :
    confirm e accept = (.error .NoPendingConfirmationError, e)
    ∧ (∀ e' : WarningEngine, getState e' = .AWAITING_CONFIRMATION →
        ∀ accept' : Bool,
          confirm (confirm e' false).2 accept'
            = (.error .NoPendingConfirmationError, (confirm e' false).2)) := by
  constructor
  · cases hp : e.pending with
    | none => simp [confirm, hp]
    | some pc => simp [getState, hp] at hidle
  · intro e' hA accept'
    cases hp : e'.pending with
    | none => simp [getState, hp] at hA
    | some pc => simp [confirm, hp]

/-- Witness for C6: confirming on an idle engine fails and leaves it
unchanged. -/
theorem confirm_without_pending_fails_witness :
    confirm { catalog := [], pending := none } true
      = (.error .NoPendingConfirmationError, { catalog := [], pending := none }) :=
  (confirm_without_pending_fails { catalog := [], pending := none } true rfl).1

/-- Helper: with id-unique user rules, find? by the id of a member finds
exactly that rule. -/
theorem find_id_of_nodup {l : List Rule} {u : Rule} (hu : u ∈ l)
    (hnd : (l.map Rule.id).Nodup) :
    l.find? (fun r => r.id == u.id) = some u := by
  induction l with
  | nil => cases hu
  | cons a t ih =>
    rw [List.map_cons, List.nodup_cons] at hnd
    rcases List.mem_cons.mp hu with h | h
    · subst h
      exact List.find?_cons_of_pos _ (by simp)
    · have hne : (a.id == u.id) = false := by
        refine beq_eq_false_iff_ne.mpr ?_
        intro heq
        exact hnd.1 (heq ▸ List.mem_map_of_mem Rule.id h)
      show (match a.id == u.id with
        | true => some a
        | false => List.find? (fun r => r.id == u.id) t) = some u
      rw [hne]
      exact ih h hnd.2

/-- Helper: id-unique lists have no two distinct rules with the same id. -/
theorem id_inj_of_nodup {l : List Rule} (hnd : (l.map Rule.id).Nodup)
    {u v : Rule} (hu : u ∈ l) (hv : v ∈ l) (h : u.id = v.id) : u = v :=
  List.inj_on_of_nodup_map hnd hu hv h

/-- Helper: find? by id returns the distinguished member when every
same-id member is that member. -/
theorem find_eq_of_mem_uniq {l : List Rule} {u : Rule} (hu : u ∈ l)
    (huniq : ∀ r ∈ l, r.id = u.id → r = u) :
    l.find? (fun r => r.id == u.id) = some u := by
  induction l with
  | nil => cases hu
  | cons a t ih =>
    by_cases h : a.id = u.id
    · have ha : a = u := huniq a (List.mem_cons_self a t) h
      subst ha
      exact List.find?_cons_of_pos _ (by simp)
    · rw [List.find?_cons_of_neg _ (by simp only [beq_iff_eq]; exact h)]
      have hut : u ∈ t := by
        rcases List.mem_cons.mp hu with h' | h'
        · exact absurd (by rw [h']) h
        · exact h'
      exact ih hut (fun r hr => huniq r (List.mem_cons_of_mem a hr))

/-- C7: when merging built-in rules with user-supplied rules, on every id
collision the user-supplied rule replaces the built-in rule entirely, so
lookups and subsequent matches against that id report the user rule and
with it its risk level and metadata. -/
theorem mergeRules_user_overrides (builtins userRules : List Rule) (b u : Rule)
    (hb : b ∈ builtins) (hu : u ∈ userRules) (hid : b.id = u.id)
    (_hndb : (builtins.map Rule.id).Nodup)
    (hndu : (userRules.map Rule.id).Nodup) :
    u ∈ mergeRules builtins userRules
    ∧ (∀ r ∈ mergeRules builtins userRules, r.id = u.id → r = u)
    ∧ findById (mergeRules builtins userRules) u.id = some u
    ∧ ∀ t : String, ∀ r ∈ (classify t (mergeRules builtins userRules)).«matches»,
        r.id = u.id → r = u := by
  have hfind : userRules.find? (fun r => r.id == u.id) = some u :=
    find_id_of_nodup hu hndu
  have hm : u ∈ mergeRules builtins userRules := by
    apply List.mem_append_left
    refine List.mem_map.mpr ⟨b, hb, ?_⟩
    show (userRules.find? (fun x => x.id == b.id)).getD b = u
    rw [hid, hfind]
    rfl
  have huniq : ∀ r ∈ mergeRules builtins userRules, r.id = u.id → r = u := by
    intro r hr hrid
    rcases List.mem_append.mp hr with hr | hr
    · obtain ⟨b', hb', heq⟩ := List.mem_map.mp hr
      cases hf : userRules.find? (fun x => x.id == b'.id) with
      | none =>
        rw [hf, Option.getD_none] at heq
        subst heq
        rw [List.find?_eq_none] at hf
        exact absurd (by simp only [beq_iff_eq]; exact hrid.symm) (hf u hu)
      | some u' =>
        rw [hf, Option.getD_some] at heq
        subst heq
        exact id_inj_of_nodup hndu (List.mem_of_find?_eq_some hf) hu hrid
    · exact id_inj_of_nodup hndu (List.mem_filter.mp hr).1 hu hrid
  refine ⟨hm, huniq, find_eq_of_mem_uniq hm huniq, ?_⟩
  intro t r hrm hrid
  rw [classify_matches, List.mem_filter] at hrm
  exact huniq r hrm.1 hrid

/-- Witness for C7: the spec's override test — a user `force-push` rule
with LOW risk replaces the CRITICAL built-in of the same id. -/
theorem mergeRules_user_overrides_witness :
    findById (mergeRules [forcePushBuiltin] [forcePushUser]) forcePushUser.id
      = some forcePushUser :=
  (mergeRules_user_overrides [forcePushBuiltin] [forcePushUser]
    forcePushBuiltin forcePushUser (List.mem_cons_self _ _)
    (List.mem_cons_self _ _) rfl (by decide) (by decide)).2.2.1

/-- Helper: one unfolding step of loadCatalog. -/
theorem loadCatalog_cons (a : RawRule) (t : List RawRule) :
    loadCatalog (a :: t)
      = match validateRule a with
        | .ok r => (r :: (loadCatalog t).1, (loadCatalog t).2)
        | .error e => ((loadCatalog t).1, (a.id, e) :: (loadCatalog t).2) := by
  cases hv : validateRule a <;> simp [loadCatalog, hv]

/-- Helper: every raw rule that validates loads into the catalog. -/
theorem loadCatalog_ok_mem {raws : List RawRule} {raw : RawRule} {r : Rule}
    (hmem : raw ∈ raws) (hok : validateRule raw = .ok r) :
    r ∈ (loadCatalog raws).1 := by
  induction raws with
  | nil => cases hmem
  | cons a t ih =>
    rw [loadCatalog_cons]
    rcases List.mem_cons.mp hmem with h | h
    · subst h
      rw [hok]
      exact List.mem_cons_self r _
    · cases hv : validateRule a with
      | ok r' => exact List.mem_cons_of_mem r' (ih h)
      | error e => exact ih h

/-- Helper: every raw rule that fails validation is reported with its id
and error. -/
theorem loadCatalog_error_mem {raws : List RawRule} {raw : RawRule}
    {err : InvalidRuleError}
    (hmem : raw ∈ raws) (herr : validateRule raw = .error err) :
    (raw.id, err) ∈ (loadCatalog raws).2 := by
  induction raws with
  | nil => cases hmem
  | cons a t ih =>
    rw [loadCatalog_cons]
    rcases List.mem_cons.mp hmem with h | h
    · subst h
      rw [herr]
      exact List.mem_cons_self _ _
    · cases hv : validateRule a with
      | ok r' => exact ih h
      | error e => exact List.mem_cons_of_mem _ (ih h)

/-- Helper: a successfully validated rule carries exactly the compiled
form of its raw pattern. -/
theorem validateRule_ok_pattern {raw : RawRule} {r : Rule}
    (h : validateRule raw = .ok r) :
    compileRaw raw.rawPattern = some r.pattern := by
  unfold validateRule at h
  split at h
  · cases h
  · split at h
    · cases h
    · split at h
      · cases h
      · rename_i p hp
        cases h
        exact hp

/-- C8: rule validation is eager — a rule with an unparseable regex or
other malformation is rejected at load time with InvalidRuleError while
all valid rules still load; a validated pattern can never fail during
matching; and evaluate totally returns a ClassificationResult echoing the
command text. -/
theorem load_validates_eagerly (raws : List RawRule) (raw : RawRule)
    (hmem : raw ∈ raws) :
    (∀ r : Rule, validateRule raw = .ok r → r ∈ (loadCatalog raws).1)
    ∧ (∀ err : InvalidRuleError, validateRule raw = .error err →
        (raw.id, err) ∈ (loadCatalog raws).2)
    ∧ (∀ src : String, ∀ cs : Bool, ∀ rl : RiskLevel,
        raw.rawPattern = .regex src cs → parseRegexCl src.data = none →
        raw.id ≠ "" → raw.riskLevel = some rl →
        validateRule raw = .error (.unparseablePattern src))
    ∧ (∀ r : Rule, validateRule raw = .ok r →
        ∀ t : String,
          matchRawPattern raw.rawPattern t = some (matchPattern r.pattern t))
    ∧ (∀ e : WarningEngine, ∀ t : String, ((evaluate e t).1).commandText = t) := by
  refine ⟨fun r hok => loadCatalog_ok_mem hmem hok,
    fun err herr => loadCatalog_error_mem hmem herr, ?_, ?_, ?_⟩
  · intro src cs rl hpat hnone hid hrl
    simp [validateRule, hid, hrl, hpat, compileRaw, hnone, rawSourceText]
  · intro r hok t
    unfold matchRawPattern
    rw [validateRule_ok_pattern hok]
    rfl
  · intro e t
    rw [evaluate_fst, classify_commandText]

/-- Witness for C8: loading a good regex rule together with a rule whose
regex source is unparseable reports the bad rule's id and error. -/
theorem load_validates_eagerly_witness :
    (badRawRule.id, InvalidRuleError.unparseablePattern "**")
      ∈ (loadCatalog [goodRawRule, badRawRule]).2 :=
  (load_validates_eagerly [goodRawRule, badRawRule] badRawRule
    (List.mem_cons_of_mem goodRawRule (List.mem_cons_self badRawRule []))).2.1
    (.unparseablePattern "**") (by rfl)

/-- Helper: every character list splits as leading whitespace, its
normalized core, and trailing whitespace. -/
theorem normalizeCl_decomp (cs : List Char) :
    cs = cs.takeWhile Char.isWhitespace ++ normalizeCl cs
      ++ ((cs.dropWhile Char.isWhitespace).reverse.takeWhile Char.isWhitespace).reverse := by
  unfold normalizeCl
  conv_rhs => rw [List.append_assoc, ← List.reverse_append,
    List.takeWhile_append_dropWhile, List.reverse_reverse,
    List.takeWhile_append_dropWhile]

/-- C9: normalization before matching is exactly trimming leading and
trailing whitespace — the normalized text occurs verbatim inside the
original (internal whitespace preserved, never collapsed), matching is
performed on that text as one unit rather than on metacharacter-split
sub-commands, a single-space literal does not match a double-space text,
and a dangerous token is found across `;`, `&&` and `|`. -/
theorem normalization_trim_only (t : String) (cat : List Rule) :
    (∃ pre post : List Char,
        t.data = pre ++ (normalize t).data ++ post
        ∧ (∀ c ∈ pre, c.isWhitespace = true)
        ∧ (∀ c ∈ post, c.isWhitespace = true))
    ∧ (∀ r ∈ cat, r ∈ (classify t cat).«matches»
        ↔ (r.enabled = true ∧ matchPattern r.pattern (normalize t) = true))
    ∧ matchPattern (.literal "rm -rf" true) "rm  -rf" = false
    ∧ matchPattern (.literal "rm -rf /" true) "echo hi; rm -rf / && ls | cat" = true := by
  refine ⟨⟨t.data.takeWhile Char.isWhitespace,
      ((t.data.dropWhile Char.isWhitespace).reverse.takeWhile Char.isWhitespace).reverse,
      normalizeCl_decomp t.data, ?_, ?_⟩, ?_, by decide, by decide⟩
  · intro c hc
    exact List.mem_takeWhile_imp hc
  · intro c hc
    exact List.mem_takeWhile_imp (List.mem_reverse.mp hc)
  · intro r hr
    rw [classify_matches, List.mem_filter, Bool.and_eq_true]
    simp [hr]

/-- Witness for C9 at a concrete command with leading and trailing
whitespace. -/
theorem normalization_trim_only_witness :
    matchPattern (.literal "rm -rf /" true) "echo hi; rm -rf / && ls | cat" = true :=
  (normalization_trim_only "  ls -la  " []).2.2.2

end Oblivion
